import Mathlib

/-!
TransactionCompiler.pb.go: the PreSigningOutput binding.

A shallow embedding of `samples/go/protos/common/TransactionCompiler.pb.go`:
the `PreSigningOutput` struct, its methods, the embedded file descriptor
and the registration data, together with the tag-length-value wire format
the struct tags and the descriptor bytes are written in.

Conventions: a byte is a `Nat` below 256; a Go `[]byte` and a Go `string`
are lists of bytes (a nil slice and an empty slice are both `[]`, the code
never compares a slice against nil); a pointer receiver is an `Option`
(`none` is the nil pointer).
-/

namespace TransactionCompiler

/-! ## Go scalar types -/

/-- Go `int32`: an integer in the range of 32-bit two's complement. -/
def GoInt32 : Type := { i : Int // -2147483648 ≤ i ∧ i ≤ 2147483647 }

instance : DecidableEq GoInt32 := inferInstanceAs (DecidableEq { i : Int // -2147483648 ≤ i ∧ i ≤ 2147483647 })

/-- The `int32` constant `0`. -/
def GoInt32.zero : GoInt32 := ⟨0, by decide⟩

instance : Inhabited GoInt32 := ⟨GoInt32.zero⟩

/-- Go conversion `int32(v)` of a `uint64`: keep the low 32 bits, read as two's complement. -/
def GoInt32.ofUint64 (v : Nat) : GoInt32 :=
  ⟨if v % 4294967296 < 2147483648 then (v % 4294967296 : Nat) else (v % 4294967296 : Nat) - 4294967296, by
    split <;> omega⟩

/-- Go conversion `uint64(v)` of an `int32`: sign-extend to 64 bits. -/
def GoInt32.toUint64 (c : GoInt32) : Nat := (c.val % 18446744073709551616).toNat

/-! ## The message struct (source lines 24-37) -/

/-- The `protoimpl.MessageState` field: the message info stored in it, if any
(an index into `file_TransactionCompiler_proto_msgTypes`). -/
structure MessageState where
  messageInfo : Option Nat := none
  deriving DecidableEq, Repr

/-- The struct `PreSigningOutput`. -/
structure PreSigningOutput where
  state : MessageState := {}
  sizeCache : Int := 0
  unknownFields : List Nat := []
  DataHash : List Nat := []
  Data : List Nat := []
  ErrorCode : GoInt32 := GoInt32.zero
  Error : List Nat := []
  deriving DecidableEq

/-- The bytes of an ASCII string literal. -/
def ascii (s : String) : List Nat := s.data.map Char.toNat

/-- The text of a list of bytes, byte by byte. -/
def text (bs : List Nat) : String := String.mk (bs.map Char.ofNat)

/-! ## The embedded descriptor (source lines 101-119) -/

/-- The bytes of `file_TransactionCompiler_proto_rawDesc`. -/
def file_TransactionCompiler_proto_rawDesc : List Nat := [
  0x0a, 0x19, 0x54, 0x72, 0x61, 0x6e, 0x73, 0x61, 0x63, 0x74, 0x69, 0x6f, 0x6e, 0x43, 0x6f, 0x6d,
  0x70, 0x69, 0x6c, 0x65, 0x72, 0x2e, 0x70, 0x72, 0x6f, 0x74, 0x6f, 0x12, 0x13, 0x54, 0x57, 0x2e,
  0x54, 0x78, 0x43, 0x6f, 0x6d, 0x70, 0x69, 0x6c, 0x65, 0x72, 0x2e, 0x50, 0x72, 0x6f, 0x74, 0x6f,
  0x22, 0x78, 0x0a, 0x10, 0x50, 0x72, 0x65, 0x53, 0x69, 0x67, 0x6e, 0x69, 0x6e, 0x67, 0x4f, 0x75,
  0x74, 0x70, 0x75, 0x74, 0x12, 0x1b, 0x0a, 0x09, 0x64, 0x61, 0x74, 0x61, 0x5f, 0x68, 0x61, 0x73,
  0x68, 0x18, 0x01, 0x20, 0x01, 0x28, 0x0c, 0x52, 0x08, 0x64, 0x61, 0x74, 0x61, 0x48, 0x61, 0x73,
  0x68, 0x12, 0x12, 0x0a, 0x04, 0x64, 0x61, 0x74, 0x61, 0x18, 0x02, 0x20, 0x01, 0x28, 0x0c, 0x52,
  0x04, 0x64, 0x61, 0x74, 0x61, 0x12, 0x1d, 0x0a, 0x0a, 0x65, 0x72, 0x72, 0x6f, 0x72, 0x5f, 0x63,
  0x6f, 0x64, 0x65, 0x18, 0x03, 0x20, 0x01, 0x28, 0x05, 0x52, 0x09, 0x65, 0x72, 0x72, 0x6f, 0x72,
  0x43, 0x6f, 0x64, 0x65, 0x12, 0x14, 0x0a, 0x05, 0x65, 0x72, 0x72, 0x6f, 0x72, 0x18, 0x04, 0x20,
  0x01, 0x28, 0x09, 0x52, 0x05, 0x65, 0x72, 0x72, 0x6f, 0x72, 0x42, 0x55, 0x0a, 0x15, 0x77, 0x61,
  0x6c, 0x6c, 0x65, 0x74, 0x2e, 0x63, 0x6f, 0x72, 0x65, 0x2e, 0x6a, 0x6e, 0x69, 0x2e, 0x70, 0x72,
  0x6f, 0x74, 0x6f, 0x5a, 0x3c, 0x67, 0x69, 0x74, 0x68, 0x75, 0x62, 0x2e, 0x63, 0x6f, 0x6d, 0x2f,
  0x62, 0x69, 0x6e, 0x61, 0x6e, 0x63, 0x65, 0x2d, 0x63, 0x68, 0x61, 0x69, 0x6e, 0x2f, 0x63, 0x68,
  0x61, 0x69, 0x6e, 0x2d, 0x69, 0x6e, 0x74, 0x65, 0x67, 0x72, 0x61, 0x74, 0x69, 0x6f, 0x6e, 0x2f,
  0x62, 0x6c, 0x6f, 0x63, 0x6b, 0x63, 0x68, 0x61, 0x69, 0x6e, 0x2f, 0x63, 0x6f, 0x6d, 0x6d, 0x6f,
  0x6e, 0x62, 0x06, 0x70, 0x72, 0x6f, 0x74, 0x6f, 0x33]

/-! ## The wire format -/

/-- Modelled from the spec: the two decode errors, `DecodeError::Truncated` and
`DecodeError::Malformed`. -/
inductive DecodeError where
  | Truncated
  | Malformed
  deriving DecidableEq, Repr

/-- The outcome of a reader: a value or a `DecodeError`. -/
inductive Res (α : Type) where
  | ok (a : α)
  | error (e : DecodeError)
  deriving DecidableEq, Repr

/-- Modelled from the spec: the base-128 variable-length integer of the
tag-length-value encoding, least significant group first, a set high bit
meaning that another byte follows. Reads at most `k` bytes: running out of
input is `Truncated`, a continuation bit on the `k`-th byte is `Malformed`. -/
def readVarint : Nat → List Nat → Res (Nat × List Nat)
  | 0, _ => .error .Malformed
  | _ + 1, [] => .error .Truncated
  | k + 1, b :: rest =>
    if b < 128 then .ok (b, rest)
    else
      match readVarint k rest with
      | .ok (v, r) => .ok (b % 128 + 128 * v, r)
      | .error e => .error e

/-- Modelled from the spec: a varint of an unsigned 64-bit value, at most ten
bytes long and below `2^64`. -/
def consumeVarint (bs : List Nat) : Res (Nat × List Nat) :=
  match readVarint 10 bs with
  | .ok (v, r) => if v < 18446744073709551616 then .ok (v, r) else .error .Malformed
  | .error e => .error e

/-- Modelled from the spec: the value part of a field, by wire type: a varint
(0), eight bytes (1), a length-prefixed byte sequence (2), four bytes (5). -/
inductive WireValue where
  | varint (v : Nat)
  | fixed64 (bs : List Nat)
  | bytes (bs : List Nat)
  | fixed32 (bs : List Nat)
  deriving DecidableEq, Repr

/-- Modelled from the spec: a field of the encoding, its tag and its value. -/
structure Field where
  num : Nat
  val : WireValue
  deriving DecidableEq, Repr

/-- Modelled from the spec: read one field: the key varint holds the tag
(`key / 8`) and the wire type (`key % 8`); a length-prefixed value whose
declared length exceeds the remaining input is `Truncated`; tag 0 and the
wire types without a length rule (3, 4, 6, 7) are `Malformed`. -/
def readField (bs : List Nat) : Res (Field × List Nat) :=
  match consumeVarint bs with
  | .error e => .error e
  | .ok (key, r) =>
    if key / 8 = 0 then .error .Malformed
    else if key % 8 = 0 then
      match consumeVarint r with
      | .error e => .error e
      | .ok (v, r') => .ok (⟨key / 8, .varint v⟩, r')
    else if key % 8 = 1 then
      if r.length < 8 then .error .Truncated
      else .ok (⟨key / 8, .fixed64 (r.take 8)⟩, r.drop 8)
    else if key % 8 = 2 then
      match consumeVarint r with
      | .error e => .error e
      | .ok (n, r') =>
        if r'.length < n then .error .Truncated
        else .ok (⟨key / 8, .bytes (r'.take n)⟩, r'.drop n)
    else if key % 8 = 5 then
      if r.length < 4 then .error .Truncated
      else .ok (⟨key / 8, .fixed32 (r.take 4)⟩, r.drop 4)
    else .error .Malformed

/-- Modelled from the spec: read fields until the input is used up. Every
field takes at least one byte, so `fuel` at least the length of the input
is never exhausted. -/
def readFields : Nat → List Nat → Res (List Field)
  | _, [] => .ok []
  | 0, _ :: _ => .error .Malformed
  | fuel + 1, b :: bs =>
    match readField (b :: bs) with
    | .error e => .error e
    | .ok (f, rest) =>
      match readFields fuel rest with
      | .error e => .error e
      | .ok fs => .ok (f :: fs)

/-- Modelled from the spec: parse a whole byte sequence as a message, a
sequence of tag-length-value fields with nothing left over. -/
def readMessage (bs : List Nat) : Res (List Field) := readFields bs.length bs

/-- Modelled from the spec: write a varint, at most `k` bytes of it. -/
def appendVarint : Nat → Nat → List Nat
  | 0, _ => []
  | k + 1, n => if n < 128 then [n] else (n % 128 + 128) :: appendVarint k (n / 128)

/-- Modelled from the spec: the varint of an unsigned 64-bit value (at most
ten bytes). -/
def writeVarint (n : Nat) : List Nat := appendVarint 10 (n % 18446744073709551616)

/-- Modelled from the spec: write one field: key, then the value with its
length in front where the wire type has one. -/
def writeField (f : Field) : List Nat :=
  match f.val with
  | .varint v => writeVarint (8 * f.num) ++ writeVarint v
  | .fixed64 bs => writeVarint (8 * f.num + 1) ++ bs
  | .bytes bs => writeVarint (8 * f.num + 2) ++ (writeVarint bs.length ++ bs)
  | .fixed32 bs => writeVarint (8 * f.num + 5) ++ bs

/-- Modelled from the spec: write the fields one after the other. -/
def writeMessage : List Field → List Nat
  | [] => []
  | f :: fs => writeField f ++ writeMessage fs

/-- Modelled from the spec: `errorText` is UTF-8 text: the well-formed byte
sequences of UTF-8 (no overlong forms, no surrogates, nothing above U+10FFFF). -/
def utf8Valid : List Nat → Bool
  | [] => true
  | b0 :: rest =>
    if b0 < 0x80 then utf8Valid rest
    else if 0xC2 ≤ b0 ∧ b0 ≤ 0xDF then
      match rest with
      | b1 :: r => (0x80 ≤ b1 && b1 ≤ 0xBF) && utf8Valid r
      | _ => false
    else if 0xE0 ≤ b0 ∧ b0 ≤ 0xEF then
      match rest with
      | b1 :: b2 :: r =>
        ((if b0 = 0xE0 then 0xA0 else 0x80) ≤ b1 && b1 ≤ (if b0 = 0xED then 0x9F else 0xBF))
          && (0x80 ≤ b2 && b2 ≤ 0xBF) && utf8Valid r
      | _ => false
    else if 0xF0 ≤ b0 ∧ b0 ≤ 0xF4 then
      match rest with
      | b1 :: b2 :: b3 :: r =>
        ((if b0 = 0xF0 then 0x90 else 0x80) ≤ b1 && b1 ≤ (if b0 = 0xF4 then 0x8F else 0xBF))
          && (0x80 ≤ b2 && b2 ≤ 0xBF) && (0x80 ≤ b3 && b3 ≤ 0xBF) && utf8Valid r
      | _ => false
    else false

/-! ## Encode, Decode and Validate -/

/-- Modelled from the spec: the fields `Encode` writes for a value: tags
1=data_hash, 2=data, 3=error_code, 4=error, with the wire kinds of the struct
tags (`bytes`, `bytes`, `varint`, `bytes`); a field holding its zero or empty
value is omitted. -/
def fieldsOf (v : PreSigningOutput) : List Field :=
  (if v.DataHash = [] then [] else [⟨1, .bytes v.DataHash⟩]) ++
  ((if v.Data = [] then [] else [⟨2, .bytes v.Data⟩]) ++
  ((if v.ErrorCode = GoInt32.zero then [] else [⟨3, .varint v.ErrorCode.toUint64⟩]) ++
  (if v.Error = [] then [] else [⟨4, .bytes v.Error⟩])))

/-- Modelled from the spec: `Encode(value)`, the deterministic
tag-length-value encoding of the four fields. The encoder and the decoder
are not part of the generated binding. -/
def Encode (v : PreSigningOutput) : List Nat := writeMessage (fieldsOf v)

/-- Modelled from the spec: store one parsed field into the value: a known
tag with the wire kind of its struct tag sets the field (`error` must be
UTF-8, else `Malformed`); any other field is skipped and discarded. -/
def applyField (acc : PreSigningOutput) (f : Field) : Res PreSigningOutput :=
  match f.num, f.val with
  | 1, .bytes p => .ok { acc with DataHash := p }
  | 2, .bytes p => .ok { acc with Data := p }
  | 3, .varint v => .ok { acc with ErrorCode := GoInt32.ofUint64 v }
  | 4, .bytes p => if utf8Valid p then .ok { acc with Error := p } else .error .Malformed
  | _, _ => .ok acc

/-- Modelled from the spec: store the parsed fields in the order read. -/
def applyFields : PreSigningOutput → List Field → Res PreSigningOutput
  | acc, [] => .ok acc
  | acc, f :: fs =>
    match applyField acc f with
    | .error e => .error e
    | .ok acc' => applyFields acc' fs

/-- Modelled from the spec: `Decode(bytes)`: parse the tag-length-value
fields, in any order, and store the known ones into the all-default value;
an absent field keeps its zero value. -/
def Decode (bs : List Nat) : Res PreSigningOutput :=
  match readMessage bs with
  | .error e => .error e
  | .ok fs => applyFields {} fs

/-- Modelled from the spec: the `ValidationError` that `Validate` reports. -/
inductive ValidationError where
  | EmptyPayloadOnSuccess
  deriving DecidableEq, Repr

/-- Modelled from the spec: `Validate(value)`: if `error_code == 0` then
`data` and `data_hash` must both be non-empty; if `error_code != 0` no
emptiness constraint is enforced. The binding has no such function. -/
def Validate (v : PreSigningOutput) : Option ValidationError :=
  if v.ErrorCode = GoInt32.zero then
    if v.Data = [] ∨ v.DataHash = [] then some .EmptyPayloadOnSuccess else none
  else none

/-! ## Reading the descriptor

The descriptor bytes are a `FileDescriptorProto` in the wire format above.
The tags and enumeration values below are those of `descriptor.proto`, the
schema of descriptors; it belongs to the protobuf library, not to this
repository. -/

/-- The payloads of the length-prefixed fields with tag `num`, in order. -/
def bytesOf (num : Nat) : List Field → List (List Nat)
  | [] => []
  | ⟨n, .bytes p⟩ :: fs => if n = num then p :: bytesOf num fs else bytesOf num fs
  | _ :: fs => bytesOf num fs

/-- The values of the varint fields with tag `num`, in order. -/
def varintsOf (num : Nat) : List Field → List Nat
  | [] => []
  | ⟨n, .varint v⟩ :: fs => if n = num then v :: varintsOf num fs else varintsOf num fs
  | _ :: fs => varintsOf num fs

/-- A singular string field: the last occurrence, or the empty string. -/
def stringOf (num : Nat) (fs : List Field) : String := text ((bytesOf num fs).getLastD [])

/-- A singular integer field: the last occurrence, or zero. -/
def scalarOf (num : Nat) (fs : List Field) : Nat := (varintsOf num fs).getLastD 0

/-- Modelled from the spec: the value `TYPE_INT32` of `FieldDescriptorProto.Type`
(a signed 32-bit integer, varint-encoded). -/
def TYPE_INT32 : Nat := 5

/-- Modelled from the spec: the value `TYPE_STRING` of `FieldDescriptorProto.Type` (text). -/
def TYPE_STRING : Nat := 9

/-- Modelled from the spec: the value `TYPE_BYTES` of `FieldDescriptorProto.Type`
(a byte sequence). -/
def TYPE_BYTES : Nat := 12

/-- A `FieldDescriptorProto`: name (1), number (3), label (4), type (5),
type_name (6), json_name (10). -/
structure FieldDescriptor where
  name : String
  number : Nat
  label : Nat
  type : Nat
  typeName : String
  jsonName : String
  deriving DecidableEq, Repr

/-- A `DescriptorProto`: name (1), field (2), and the numbers of nested_type (3),
enum_type (4) and extension (6) entries. -/
structure MessageDescriptor where
  name : String
  fields : List FieldDescriptor
  numNested : Nat
  numEnums : Nat
  numExtensions : Nat
  deriving DecidableEq, Repr

/-- A `FileDescriptorProto`: name (1), package (2), message_type (4), syntax (12),
and the numbers of dependency (3), enum_type (5), service (6) and extension (7)
entries. -/
structure FileDescriptor where
  name : String
  package : String
  messages : List MessageDescriptor
  numDependencies : Nat
  numEnums : Nat
  numServices : Nat
  numExtensions : Nat
  syntaxName : String
  deriving DecidableEq, Repr

/-- The number of fields with tag `num`. -/
def countOf (num : Nat) (fs : List Field) : Nat := (fs.filter (fun f => f.num = num)).length

/-- Parse the bytes of a `FieldDescriptorProto`. -/
def parseFieldDescriptor (bs : List Nat) : Res FieldDescriptor :=
  match readMessage bs with
  | .error e => .error e
  | .ok fs => .ok {
      name := stringOf 1 fs, number := scalarOf 3 fs, label := scalarOf 4 fs,
      type := scalarOf 5 fs, typeName := stringOf 6 fs, jsonName := stringOf 10 fs }

/-- Parse each byte sequence of a list, stopping at the first failure. -/
def parseAll {α : Type} (p : List Nat → Res α) : List (List Nat) → Res (List α)
  | [] => .ok []
  | bs :: rest =>
    match p bs with
    | .error e => .error e
    | .ok a =>
      match parseAll p rest with
      | .error e => .error e
      | .ok as => .ok (a :: as)

/-- Parse the bytes of a `DescriptorProto`. -/
def parseMessageDescriptor (bs : List Nat) : Res MessageDescriptor :=
  match readMessage bs with
  | .error e => .error e
  | .ok fs =>
    match parseAll parseFieldDescriptor (bytesOf 2 fs) with
    | .error e => .error e
    | .ok fields => .ok {
        name := stringOf 1 fs, fields := fields, numNested := countOf 3 fs,
        numEnums := countOf 4 fs, numExtensions := countOf 6 fs }

/-- Parse the bytes of a `FileDescriptorProto`. -/
def parseFileDescriptor (bs : List Nat) : Res FileDescriptor :=
  match readMessage bs with
  | .error e => .error e
  | .ok fs =>
    match parseAll parseMessageDescriptor (bytesOf 4 fs) with
    | .error e => .error e
    | .ok msgs => .ok {
        name := stringOf 1 fs, package := stringOf 2 fs, messages := msgs,
        numDependencies := countOf 3 fs, numEnums := countOf 5 fs,
        numServices := countOf 6 fs, numExtensions := countOf 7 fs,
        syntaxName := stringOf 12 fs }

/-! ## The struct tags (source lines 30-36) -/

/-- The Go types of the four exported fields. -/
inductive GoType where
  | byteSlice
  | int32
  | string
  deriving DecidableEq, Repr

/-- One exported field of the struct declaration: its Go name, its Go type
and the value of its `protobuf:"..."` tag. -/
structure StructField where
  goName : String
  goType : GoType
  protobufTag : String
  deriving DecidableEq, Repr

/-- The exported fields of `PreSigningOutput` as declared. -/
def PreSigningOutput.structFields : List StructField := [
  ⟨"DataHash", .byteSlice, "bytes,1,opt,name=data_hash,json=dataHash,proto3"⟩,
  ⟨"Data", .byteSlice, "bytes,2,opt,name=data,proto3"⟩,
  ⟨"ErrorCode", .int32, "varint,3,opt,name=error_code,json=errorCode,proto3"⟩,
  ⟨"Error", .string, "bytes,4,opt,name=error,proto3"⟩]

/-- Split at the commas. -/
def splitComma : List Char → List (List Char)
  | [] => [[]]
  | c :: cs =>
    match splitComma cs with
    | [] => [[c]]
    | p :: ps => if c = ',' then [] :: p :: ps else (c :: p) :: ps

/-- Read a decimal number. -/
def parseDecimal (cs : List Char) : Option Nat :=
  if cs = [] then none
  else cs.foldl (fun acc c => acc.bind fun n =>
    if 48 ≤ c.toNat ∧ c.toNat ≤ 57 then some (10 * n + (c.toNat - 48)) else none) (some 0)

/-- The wire kind of a struct tag: its first component. -/
def tagWire (tag : String) : String := String.mk ((splitComma tag.data).headD [])

/-- The field number of a struct tag: its second component. -/
def tagNumber (tag : String) : Option Nat :=
  match splitComma tag.data with
  | _ :: n :: _ => parseDecimal n
  | _ => none

/-- The proto name of a struct tag: the component `name=...`. -/
def tagName (tag : String) : Option String :=
  (splitComma tag.data).findSome? fun p =>
    if p.take 5 = ['n', 'a', 'm', 'e', '='] then some (String.mk (p.drop 5)) else none

/-- Modelled from the spec: the Go type of a field of a given descriptor type:
bytes is a byte sequence, int32 a signed 32-bit integer, string is text. -/
def goTypeOf (t : Nat) : Option GoType :=
  if t = TYPE_BYTES then some .byteSlice
  else if t = TYPE_INT32 then some .int32
  else if t = TYPE_STRING then some .string
  else none

/-- Modelled from the spec: the wire kind of a descriptor type: int32 is
varint-encoded, bytes and string are length-prefixed. -/
def wireOf (t : Nat) : Option String :=
  if t = TYPE_BYTES ∨ t = TYPE_STRING then some "bytes"
  else if t = TYPE_INT32 then some "varint"
  else none

/-! ## The methods (source lines 39-97) -/

/-- The method `Reset` on a non-nil receiver: `*x = PreSigningOutput{}`, then,
if `protoimpl.UnsafeEnabled`, the message info `&msgTypes[0]` is stored into
the state. The value of `protoimpl.UnsafeEnabled` is a parameter. -/
def PreSigningOutput.Reset (UnsafeEnabled : Bool) (_x : PreSigningOutput) : PreSigningOutput :=
  let x' : PreSigningOutput := {}
  if UnsafeEnabled then { x' with state := { messageInfo := some 0 } } else x'

/-- The method `ProtoReflect`: with `UnsafeEnabled` and a non-nil receiver the
message info is stored into the state if none is there; the result is the
index of the message info of the returned reflection view. The second
component is the receiver afterwards. -/
def PreSigningOutput.ProtoReflect (UnsafeEnabled : Bool) (x : Option PreSigningOutput) : Nat × Option PreSigningOutput :=
  match UnsafeEnabled, x with
  | true, some v =>
    if v.state.messageInfo = none then (0, some { v with state := { messageInfo := some 0 } })
    else (v.state.messageInfo.getD 0, some v)
  | _, _ => (0, x)

/-- The method `String`: `protoimpl.X.MessageStringOf(x)`. The library formats
the message through its reflection view; the formatting is a parameter. The
second component is the receiver afterwards. -/
def PreSigningOutput.String (UnsafeEnabled : Bool) (MessageStringOf : Option PreSigningOutput → List Nat)
    (x : Option PreSigningOutput) : List Nat × Option PreSigningOutput :=
  let x' := (PreSigningOutput.ProtoReflect UnsafeEnabled x).2
  (MessageStringOf x', x')

/-- The method `ProtoMessage`: an empty body. The result is the receiver afterwards. -/
def PreSigningOutput.ProtoMessage (x : Option PreSigningOutput) : Option PreSigningOutput := x

/-- The package-level variables `file_TransactionCompiler_proto_rawDescOnce`
(whether it has run) and `file_TransactionCompiler_proto_rawDescData`. -/
structure RawDescState where
  onceDone : Bool := false
  rawDescData : List Nat := file_TransactionCompiler_proto_rawDesc
  deriving DecidableEq, Repr

/-- The function `file_TransactionCompiler_proto_rawDescGZIP`: compress the data
once, return it. `protoimpl.X.CompressGZIP` is a parameter. -/
def file_TransactionCompiler_proto_rawDescGZIP (CompressGZIP : List Nat → List Nat)
    (g : RawDescState) : List Nat × RawDescState :=
  let g' : RawDescState :=
    if g.onceDone then g else { onceDone := true, rawDescData := CompressGZIP g.rawDescData }
  (g'.rawDescData, g')

/-- The method `Descriptor`: the compressed descriptor and the path `[]int{0}`.
The receiver is not named in the source; it is returned as it was. -/
def PreSigningOutput.Descriptor (CompressGZIP : List Nat → List Nat) (g : RawDescState)
    (x : Option PreSigningOutput) : (List Nat × List Int) × RawDescState × Option PreSigningOutput :=
  let r := file_TransactionCompiler_proto_rawDescGZIP CompressGZIP g
  ((r.1, [0]), r.2, x)

/-- The method `GetDataHash`. -/
def PreSigningOutput.GetDataHash (x : Option PreSigningOutput) : List Nat :=
  match x with
  | some v => v.DataHash
  | none => []

/-- The method `GetData`. -/
def PreSigningOutput.GetData (x : Option PreSigningOutput) : List Nat :=
  match x with
  | some v => v.Data
  | none => []

/-- The method `GetErrorCode`. -/
def PreSigningOutput.GetErrorCode (x : Option PreSigningOutput) : GoInt32 :=
  match x with
  | some v => v.ErrorCode
  | none => GoInt32.zero

/-- The method `GetError`. -/
def PreSigningOutput.GetError (x : Option PreSigningOutput) : List Nat :=
  match x with
  | some v => v.Error
  | none => []

/-- The operations the binding exposes on a `PreSigningOutput`. -/
inductive Op where
  | Reset
  | String
  | ProtoMessage
  | ProtoReflect
  | Descriptor
  | GetDataHash
  | GetData
  | GetErrorCode
  | GetError
  deriving DecidableEq, Repr

/-- The receiver after an operation on a non-nil receiver `x`. The getters have
no assignment in their bodies. -/
def Op.after (UnsafeEnabled : Bool) (MessageStringOf : Option PreSigningOutput → List Nat)
    (CompressGZIP : List Nat → List Nat) (g : RawDescState) (x : PreSigningOutput) :
    Op → Option PreSigningOutput
  | .Reset => some (PreSigningOutput.Reset UnsafeEnabled x)
  | .String => (PreSigningOutput.String UnsafeEnabled MessageStringOf (some x)).2
  | .ProtoMessage => PreSigningOutput.ProtoMessage (some x)
  | .ProtoReflect => (PreSigningOutput.ProtoReflect UnsafeEnabled (some x)).2
  | .Descriptor => (PreSigningOutput.Descriptor CompressGZIP g (some x)).2.2
  | .GetDataHash => some x
  | .GetData => some x
  | .GetErrorCode => some x
  | .GetError => some x

/-! ## The registration data (source lines 133-182) -/

/-- A `protoimpl.MessageInfo`: whether its `Exporter` is set. -/
structure MessageInfo where
  hasExporter : Bool := false
  deriving DecidableEq, Repr

/-- The variable `file_TransactionCompiler_proto_msgTypes = make([]protoimpl.MessageInfo, 1)`. -/
def file_TransactionCompiler_proto_msgTypes : List MessageInfo := List.replicate 1 {}

/-- The variable `file_TransactionCompiler_proto_goTypes`: the Go types registered,
by name. -/
def file_TransactionCompiler_proto_goTypes : List String := ["PreSigningOutput"]

/-- The variable `file_TransactionCompiler_proto_depIdxs`. -/
def file_TransactionCompiler_proto_depIdxs : List Int := [0, 0, 0, 0, 0]

/-- The struct `protoimpl.DescBuilder` as filled in by the init function. -/
structure DescBuilder where
  RawDescriptor : List Nat
  NumEnums : Nat
  NumMessages : Nat
  NumExtensions : Nat
  NumServices : Nat
  deriving DecidableEq, Repr

/-- The struct `protoimpl.TypeBuilder` as filled in by the init function. -/
structure TypeBuilder where
  File : DescBuilder
  GoTypes : List String
  DependencyIndexes : List Int
  MessageInfos : List MessageInfo
  deriving DecidableEq, Repr

/-- The function `file_TransactionCompiler_proto_init` on its first run, up to
the `protoimpl.TypeBuilder` literal it hands to `Build`: when `UnsafeEnabled`
is false the exporter of `msgTypes[0]` is set first. -/
def file_TransactionCompiler_proto_init (UnsafeEnabled : Bool) : TypeBuilder :=
  let msgTypes : List MessageInfo :=
    if !UnsafeEnabled then file_TransactionCompiler_proto_msgTypes.set 0 { hasExporter := true }
    else file_TransactionCompiler_proto_msgTypes
  { File := {
      RawDescriptor := file_TransactionCompiler_proto_rawDesc,
      NumEnums := 0,
      NumMessages := 1,
      NumExtensions := 0,
      NumServices := 0 },
    GoTypes := file_TransactionCompiler_proto_goTypes,
    DependencyIndexes := file_TransactionCompiler_proto_depIdxs,
    MessageInfos := msgTypes }

/-- All messages of a file: the top-level ones and those nested in them. -/
def FileDescriptor.totalMessages (fd : FileDescriptor) : Nat :=
  fd.messages.length + (fd.messages.map (fun m => m.numNested)).sum

/-- All enums of a file: the top-level ones and those declared in its messages. -/
def FileDescriptor.totalEnums (fd : FileDescriptor) : Nat :=
  fd.numEnums + (fd.messages.map (fun m => m.numEnums)).sum

/-- All extensions of a file: the top-level ones and those declared in its messages. -/
def FileDescriptor.totalExtensions (fd : FileDescriptor) : Nat :=
  fd.numExtensions + (fd.messages.map (fun m => m.numExtensions)).sum

/-- Parse a byte sequence as a message and write the fields read back out. -/
def reparse (bs : List Nat) : Option (List Nat) :=
  match readMessage bs with
  | .ok fs => some (writeMessage fs)
  | .error _ => none

/-- The file descriptor the embedded bytes spell out. -/
def expectedFile : FileDescriptor := {
  name := "TransactionCompiler.proto"
  package := "TW.TxCompiler.Proto"
  messages := [{
    name := "PreSigningOutput"
    fields := [
      ⟨"data_hash", 1, 1, 12, "", "dataHash"⟩, ⟨"data", 2, 1, 12, "", "data"⟩,
      ⟨"error_code", 3, 1, 5, "", "errorCode"⟩, ⟨"error", 4, 1, 9, "", "error"⟩]
    numNested := 0, numEnums := 0, numExtensions := 0 }]
  numDependencies := 0, numEnums := 0, numServices := 0, numExtensions := 0
  syntaxName := "proto3" }

/-- The success value of the spec's concrete scenario. -/
def successValue : PreSigningOutput :=
  { DataHash := [0xAA, 0xBB], Data := [0x11, 0x22, 0x33, 0x44, 0x55] }

/-- The failure value of the spec's concrete scenario. -/
def failureValue : PreSigningOutput :=
  { ErrorCode := ⟨1, by decide⟩, Error := ascii "invalid amount" }

/-- Modelled from the spec: a valid value: the byte sequences have a length a
Go slice or string can have, and `error` is UTF-8 text. -/
def Valid (v : PreSigningOutput) : Prop :=
  v.DataHash.length < 9223372036854775808 ∧ v.Data.length < 9223372036854775808 ∧
  v.Error.length < 9223372036854775808 ∧ utf8Valid v.Error = true

instance (v : PreSigningOutput) : Decidable (Valid v) := by
  unfold Valid; exact inferInstance

/-- A field the wire format can carry: a tag from 1 whose key fits 64 bits, a
varint below `2^64`, a byte sequence shorter than `2^64`, or exactly eight or
four bytes. -/
def Field.WF (f : Field) : Prop :=
  1 ≤ f.num ∧ 8 * f.num + 7 < 18446744073709551616 ∧
  match f.val with
  | .varint v => v < 18446744073709551616
  | .fixed64 bs => bs.length = 8
  | .bytes bs => bs.length < 18446744073709551616
  | .fixed32 bs => bs.length = 4

/-- The four exported fields of two values agree. -/
def sameFields (x y : PreSigningOutput) : Prop :=
  y.DataHash = x.DataHash ∧ y.Data = x.Data ∧ y.ErrorCode = x.ErrorCode ∧ y.Error = x.Error

instance (x y : PreSigningOutput) : Decidable (sameFields x y) := by
  unfold sameFields; exact inferInstance

/-! ## Theorems -/

/-! ### The varint reader and writer -/

theorem readVarint_appendVarint (k n : Nat) (rest : List Nat) (h : n < 128 ^ (k + 1)) :
    readVarint (k + 1) (appendVarint (k + 1) n ++ rest) = .ok (n, rest) := by
  induction k generalizing n with
  | zero =>
    have hn : n < 128 := by simpa using h
    simp [appendVarint, readVarint, hn]
  | succ k ih =>
    by_cases hn : n < 128
    · simp [appendVarint, readVarint, hn]
    · have hdiv : n / 128 < 128 ^ (k + 1) := by
        rw [Nat.div_lt_iff_lt_mul (by norm_num)]
        calc n < 128 ^ (k + 1 + 1) := h
          _ = 128 ^ (k + 1) * 128 := by ring
      have hb : ¬ (n % 128 + 128 < 128) := by omega
      rw [appendVarint, if_neg hn, List.cons_append, readVarint, if_neg hb, ih _ hdiv]
      simp only
      congr 2
      omega

theorem consumeVarint_writeVarint (n : Nat) (rest : List Nat) (h : n < 18446744073709551616) :
    consumeVarint (writeVarint n ++ rest) = .ok (n, rest) := by
  have h70 : n < 128 ^ (9 + 1) := by
    have : (18446744073709551616 : Nat) ≤ 128 ^ (9 + 1) := by norm_num
    omega
  unfold consumeVarint writeVarint
  rw [Nat.mod_eq_of_lt h, readVarint_appendVarint 9 n rest h70]
  simp [h]

theorem appendVarint_ne_nil (k n : Nat) : appendVarint (k + 1) n ≠ [] := by
  rw [appendVarint]
  split <;> simp

theorem writeVarint_ne_nil (n : Nat) : writeVarint n ≠ [] := appendVarint_ne_nil 9 _

theorem readVarint_length (k : Nat) (bs : List Nat) (v : Nat) (r : List Nat)
    (h : readVarint k bs = .ok (v, r)) : r.length < bs.length := by
  induction k generalizing bs v with
  | zero => simp [readVarint] at h
  | succ k ih =>
    cases bs with
    | nil => simp [readVarint] at h
    | cons b t =>
      rw [readVarint] at h
      split at h
      · simp only [Res.ok.injEq, Prod.mk.injEq] at h
        rw [← h.2]
        simp
      · split at h
        · rename_i v' r' hrec
          simp only [Res.ok.injEq, Prod.mk.injEq] at h
          obtain ⟨-, rfl⟩ := h
          have := ih t v' hrec
          simp only [List.length_cons]
          omega
        · simp at h

theorem consumeVarint_length (bs : List Nat) (v : Nat) (r : List Nat)
    (h : consumeVarint bs = .ok (v, r)) : r.length < bs.length := by
  unfold consumeVarint at h
  split at h
  · rename_i v' r' hrec
    split at h
    · simp only [Res.ok.injEq, Prod.mk.injEq] at h
      rw [← h.2]
      exact readVarint_length 10 bs v' r' hrec
    · simp at h
  · simp at h

/-! ### One field -/

theorem readField_writeField (f : Field) (rest : List Nat) (h : f.WF) :
    readField (writeField f ++ rest) = .ok (f, rest) := by
  obtain ⟨num, val⟩ := f
  obtain ⟨h1, h2, h3⟩ := h
  simp only at h1 h2 h3
  cases val with
  | varint v =>
    simp only at h3
    have hk : (8 * num) / 8 = num := by omega
    have hm : (8 * num) % 8 = 0 := by omega
    have hne : ¬ num = 0 := by omega
    simp only [writeField, List.append_assoc, readField]
    rw [consumeVarint_writeVarint _ _ (by omega)]
    simp only [hk, hm, hne, if_false, if_true]
    rw [consumeVarint_writeVarint _ _ h3]
  | fixed64 bs =>
    simp only at h3
    have hk : (8 * num + 1) / 8 = num := by omega
    have hm : (8 * num + 1) % 8 = 1 := by omega
    have hne : ¬ num = 0 := by omega
    simp only [writeField, List.append_assoc, readField]
    rw [consumeVarint_writeVarint _ _ (by omega)]
    simp only [hk, hm, hne, if_false, if_true]
    have hl : ¬ ((bs ++ rest).length < 8) := by simp [h3]
    rw [if_neg hl, List.take_left' h3, List.drop_left' h3]
    simp
  | bytes bs =>
    simp only at h3
    have hk : (8 * num + 2) / 8 = num := by omega
    have hm : (8 * num + 2) % 8 = 2 := by omega
    have hne : ¬ num = 0 := by omega
    simp only [writeField, List.append_assoc, readField]
    rw [consumeVarint_writeVarint _ _ (by omega)]
    simp only [hk, hm, hne, if_false, if_true]
    rw [consumeVarint_writeVarint _ _ h3]
    simp
  | fixed32 bs =>
    simp only at h3
    have hk : (8 * num + 5) / 8 = num := by omega
    have hm : (8 * num + 5) % 8 = 5 := by omega
    have hne : ¬ num = 0 := by omega
    simp only [writeField, List.append_assoc, readField]
    rw [consumeVarint_writeVarint _ _ (by omega)]
    simp only [hk, hm, hne, if_false, if_true]
    have hl : ¬ ((bs ++ rest).length < 4) := by simp [h3]
    rw [if_neg hl, List.take_left' h3, List.drop_left' h3]
    simp

theorem readField_length (bs : List Nat) (f : Field) (rest : List Nat)
    (h : readField bs = .ok (f, rest)) : rest.length < bs.length := by
  unfold readField at h
  split at h
  · simp at h
  · rename_i key r hkey
    have hr := consumeVarint_length bs key r hkey
    split at h
    · simp at h
    · split at h
      · split at h
        · simp at h
        · rename_i v r' hv
          have := consumeVarint_length r v r' hv
          simp only [Res.ok.injEq, Prod.mk.injEq] at h
          rw [← h.2]; omega
      · split at h
        · split at h
          · simp at h
          · simp only [Res.ok.injEq, Prod.mk.injEq] at h
            rw [← h.2, List.length_drop]; omega
        · split at h
          · split at h
            · simp at h
            · rename_i n r' hn
              have := consumeVarint_length r n r' hn
              split at h
              · simp at h
              · simp only [Res.ok.injEq, Prod.mk.injEq] at h
                rw [← h.2, List.length_drop]; omega
          · split at h
            · split at h
              · simp at h
              · simp only [Res.ok.injEq, Prod.mk.injEq] at h
                rw [← h.2, List.length_drop]; omega
            · simp at h

/-! ### A whole message -/

theorem readFields_fuel (fuel₁ fuel₂ : Nat) (bs : List Nat)
    (h₁ : bs.length ≤ fuel₁) (h₂ : bs.length ≤ fuel₂) :
    readFields fuel₁ bs = readFields fuel₂ bs := by
  induction fuel₁ generalizing fuel₂ bs with
  | zero =>
    have : bs = [] := List.length_eq_zero.mp (by omega)
    subst this
    cases fuel₂ <;> simp [readFields]
  | succ k ih =>
    cases bs with
    | nil => cases fuel₂ <;> simp [readFields]
    | cons b t =>
      cases fuel₂ with
      | zero => simp at h₂
      | succ m =>
        simp only [readFields]
        cases hf : readField (b :: t) with
        | error e => rfl
        | ok p =>
          obtain ⟨f, rest⟩ := p
          have hlen := readField_length _ _ _ hf
          simp only [List.length_cons] at hlen h₁ h₂
          simp only
          rw [ih m rest (by omega) (by omega)]

/-- Reading a non-empty message is reading one field and then the rest. -/
theorem readMessage_eq (bs : List Nat) (hne : bs ≠ []) :
    readMessage bs =
      match readField bs with
      | .error e => .error e
      | .ok (f, rest) =>
        match readMessage rest with
        | .error e => .error e
        | .ok fs => .ok (f :: fs) := by
  cases bs with
  | nil => exact absurd rfl hne
  | cons b t =>
    simp only [readMessage, List.length_cons, readFields]
    cases hf : readField (b :: t) with
    | error e => rfl
    | ok p =>
      obtain ⟨f, rest⟩ := p
      have hlen := readField_length _ _ _ hf
      simp only [List.length_cons] at hlen
      simp only
      rw [readFields_fuel t.length rest.length rest (by omega) (le_refl _)]

theorem readField_nil : readField [] = .error .Truncated := by
  simp [readField, consumeVarint, readVarint]

theorem writeField_ne_nil (f : Field) : writeField f ≠ [] := by
  unfold writeField
  split <;> simp [writeVarint_ne_nil]

theorem readMessage_writeMessage (fs : List Field) (h : ∀ f ∈ fs, f.WF) :
    readMessage (writeMessage fs) = .ok fs := by
  induction fs with
  | nil => rfl
  | cons f fs ih =>
    have hne : writeMessage (f :: fs) ≠ [] := by
      simp [writeMessage, writeField_ne_nil]
    rw [readMessage_eq _ hne]
    simp only [writeMessage]
    rw [readField_writeField f _ (h f (List.mem_cons_self _ _))]
    simp only
    rw [ih (fun g hg => h g (List.mem_cons_of_mem _ hg))]

/-! ### Encode and Decode -/

theorem GoInt32.ofUint64_toUint64 (c : GoInt32) : GoInt32.ofUint64 c.toUint64 = c := by
  obtain ⟨c, h1, h2⟩ := c
  apply Subtype.ext
  simp only [GoInt32.ofUint64, GoInt32.toUint64]
  split <;> omega

theorem GoInt32.toUint64_lt (c : GoInt32) : c.toUint64 < 18446744073709551616 := by
  obtain ⟨c, h1, h2⟩ := c
  simp only [GoInt32.toUint64]
  omega

theorem fieldsOf_WF (v : PreSigningOutput) (h : Valid v) : ∀ f ∈ fieldsOf v, f.WF := by
  obtain ⟨h1, h2, h3, -⟩ := h
  intro f hf
  simp only [fieldsOf, List.mem_append] at hf
  rcases hf with hf | hf | hf | hf
  · split at hf
    · simp at hf
    · simp only [List.mem_singleton] at hf
      subst hf
      refine ⟨by simp, by simp, ?_⟩
      simp only; omega
  · split at hf
    · simp at hf
    · simp only [List.mem_singleton] at hf
      subst hf
      refine ⟨by simp, by simp, ?_⟩
      simp only; omega
  · split at hf
    · simp at hf
    · simp only [List.mem_singleton] at hf
      subst hf
      exact ⟨by simp, by simp, GoInt32.toUint64_lt _⟩
  · split at hf
    · simp at hf
    · simp only [List.mem_singleton] at hf
      subst hf
      refine ⟨by simp, by simp, ?_⟩
      simp only; omega

theorem applyFields_fieldsOf (v : PreSigningOutput) (h : utf8Valid v.Error = true) :
    applyFields {} (fieldsOf v) =
      .ok { DataHash := v.DataHash, Data := v.Data, ErrorCode := v.ErrorCode, Error := v.Error } := by
  unfold fieldsOf
  by_cases h1 : v.DataHash = [] <;> by_cases h2 : v.Data = [] <;>
    by_cases h3 : v.ErrorCode = GoInt32.zero <;> by_cases h4 : v.Error = [] <;>
    simp [h1, h2, h3, h4, applyFields, applyField, GoInt32.ofUint64_toUint64, h]

/-- Decoding the encoding of a valid value gives its four fields back. -/
theorem Decode_Encode (v : PreSigningOutput) (h : Valid v) :
    Decode (Encode v) =
      .ok { DataHash := v.DataHash, Data := v.Data, ErrorCode := v.ErrorCode, Error := v.Error } := by
  unfold Decode Encode
  rw [readMessage_writeMessage _ (fieldsOf_WF v h)]
  exact applyFields_fieldsOf v h.2.2.2

/-! ### Input with its final byte removed -/

theorem readVarint_snoc (k : Nat) (bs : List Nat) (b v : Nat) (rest : List Nat)
    (h : readVarint k (bs ++ [b]) = .ok (v, rest)) :
    (rest = [] ∧ readVarint k bs = .error .Truncated) ∨
    (∃ rest', rest = rest' ++ [b] ∧ readVarint k bs = .ok (v, rest')) := by
  induction k generalizing bs v with
  | zero => simp [readVarint] at h
  | succ k ih =>
    cases bs with
    | nil =>
      left
      simp only [List.nil_append, readVarint] at h
      split at h
      · simp only [Res.ok.injEq, Prod.mk.injEq] at h
        exact ⟨h.2.symm, by simp [readVarint]⟩
      · cases k <;> simp [readVarint] at h
    | cons c t =>
      rw [List.cons_append, readVarint] at h
      rw [readVarint]
      by_cases hc : c < 128
      · simp only [hc, if_true, Res.ok.injEq, Prod.mk.injEq] at h ⊢
        right
        exact ⟨t, h.2.symm, h.1, rfl⟩
      · simp only [hc, if_false] at h ⊢
        cases hrec : readVarint k (t ++ [b]) with
        | error e => simp [hrec] at h
        | ok p =>
          obtain ⟨v', r⟩ := p
          simp only [hrec, Res.ok.injEq, Prod.mk.injEq] at h
          obtain ⟨hv, rfl⟩ := h
          rcases ih t v' hrec with ⟨hr, ht⟩ | ⟨rest', hr, ht⟩
          · left; exact ⟨hr, by simp [ht]⟩
          · right; exact ⟨rest', hr, by simp [ht, hv]⟩

theorem consumeVarint_snoc (bs : List Nat) (b v : Nat) (rest : List Nat)
    (h : consumeVarint (bs ++ [b]) = .ok (v, rest)) :
    (rest = [] ∧ consumeVarint bs = .error .Truncated) ∨
    (∃ rest', rest = rest' ++ [b] ∧ consumeVarint bs = .ok (v, rest')) := by
  unfold consumeVarint at h ⊢
  cases hrec : readVarint 10 (bs ++ [b]) with
  | error e => simp [hrec] at h
  | ok p =>
    obtain ⟨v', r⟩ := p
    simp only [hrec] at h
    split at h
    · rename_i hlt
      simp only [Res.ok.injEq, Prod.mk.injEq] at h
      obtain ⟨rfl, rfl⟩ := h
      rcases readVarint_snoc 10 bs b v' r hrec with ⟨hr, ht⟩ | ⟨rest', hr, ht⟩
      · left; exact ⟨hr, by simp [ht]⟩
      · right; exact ⟨rest', hr, by simp [ht, hlt]⟩
    · simp at h

theorem consumeVarint_nil : consumeVarint [] = .error .Truncated := by
  simp [consumeVarint, readVarint]

/-- The last `n` bytes of a field value when the input lost its final byte. -/
theorem take_drop_snoc (n : Nat) (r : List Nat) (b : Nat) (h : ¬ (r ++ [b]).length < n) :
    (r.length < n ∧ List.drop n (r ++ [b]) = []) ∨
    (¬ r.length < n ∧ List.take n (r ++ [b]) = List.take n r ∧
      List.drop n (r ++ [b]) = List.drop n r ++ [b]) := by
  simp only [List.length_append, List.length_singleton] at h
  by_cases hr : r.length < n
  · left
    exact ⟨hr, List.drop_of_length_le (by simp; omega)⟩
  · right
    exact ⟨hr, List.take_append_of_le_length (by omega), List.drop_append_of_le_length (by omega)⟩

theorem readField_snoc (bs : List Nat) (b : Nat) (f : Field) (rest : List Nat)
    (h : readField (bs ++ [b]) = .ok (f, rest)) :
    (rest = [] ∧ readField bs = .error .Truncated) ∨
    (∃ rest', rest = rest' ++ [b] ∧ readField bs = .ok (f, rest')) := by
  unfold readField at h ⊢
  cases hkey : consumeVarint (bs ++ [b]) with
  | error e => simp [hkey] at h
  | ok p =>
    obtain ⟨key, r⟩ := p
    simp only [hkey] at h
    rcases consumeVarint_snoc bs b key r hkey with ⟨hr, ht⟩ | ⟨r0, hr, ht⟩
    · subst hr
      exfalso
      simp only [consumeVarint_nil, List.length_nil] at h
      split at h
      · simp at h
      · split at h
        · simp at h
        · split at h
          · simp at h
          · split at h
            · simp at h
            · split at h
              · simp at h
              · simp at h
    · subst hr
      simp only [ht]
      by_cases h0 : key / 8 = 0
      · simp [h0] at h
      · simp only [h0, if_false] at h ⊢
        by_cases hw0 : key % 8 = 0
        · simp only [hw0, if_true] at h ⊢
          cases hv : consumeVarint (r0 ++ [b]) with
          | error e => simp [hv] at h
          | ok q =>
            obtain ⟨v, r'⟩ := q
            simp only [hv, Res.ok.injEq, Prod.mk.injEq] at h
            obtain ⟨rfl, rfl⟩ := h
            rcases consumeVarint_snoc r0 b v r' hv with ⟨hr, ht'⟩ | ⟨r1, hr, ht'⟩
            · left; exact ⟨hr, by simp [ht']⟩
            · right; exact ⟨r1, hr, by simp [ht']⟩
        · simp only [hw0, if_false] at h ⊢
          by_cases hw1 : key % 8 = 1
          · simp only [hw1, if_true] at h ⊢
            by_cases hl : (r0 ++ [b]).length < 8
            · rw [if_pos hl] at h; simp at h
            · rw [if_neg hl] at h; simp only [Res.ok.injEq, Prod.mk.injEq] at h
              obtain ⟨rfl, rfl⟩ := h
              rcases take_drop_snoc 8 r0 b hl with ⟨hlt, hd⟩ | ⟨hge, htk, hd⟩
              · left; exact ⟨hd, by simp [hlt]⟩
              · right; exact ⟨_, hd, by simp [hge, htk]⟩
          · simp only [hw1, if_false] at h ⊢
            by_cases hw2 : key % 8 = 2
            · simp only [hw2, if_true] at h ⊢
              cases hv : consumeVarint (r0 ++ [b]) with
              | error e => simp [hv] at h
              | ok q =>
                obtain ⟨n, r'⟩ := q
                simp only [hv] at h
                rcases consumeVarint_snoc r0 b n r' hv with ⟨hr, ht'⟩ | ⟨r1, hr, ht'⟩
                · left
                  subst hr
                  by_cases hl : ([] : List Nat).length < n
                  · rw [if_pos hl] at h; simp at h
                  · rw [if_neg hl] at h; simp only [Res.ok.injEq, Prod.mk.injEq] at h
                    exact ⟨by rw [← h.2]; simp, by simp [ht']⟩
                · subst hr
                  simp only [ht']
                  by_cases hl : (r1 ++ [b]).length < n
                  · rw [if_pos hl] at h; simp at h
                  · rw [if_neg hl] at h; simp only [Res.ok.injEq, Prod.mk.injEq] at h
                    obtain ⟨rfl, rfl⟩ := h
                    rcases take_drop_snoc n r1 b hl with ⟨hlt, hd⟩ | ⟨hge, htk, hd⟩
                    · left; exact ⟨hd, by simp [hlt]⟩
                    · right; exact ⟨_, hd, by simp [hge, htk]⟩
            · simp only [hw2, if_false] at h ⊢
              by_cases hw5 : key % 8 = 5
              · simp only [hw5, if_true] at h ⊢
                by_cases hl : (r0 ++ [b]).length < 4
                · rw [if_pos hl] at h; simp at h
                · rw [if_neg hl] at h; simp only [Res.ok.injEq, Prod.mk.injEq] at h
                  obtain ⟨rfl, rfl⟩ := h
                  rcases take_drop_snoc 4 r0 b hl with ⟨hlt, hd⟩ | ⟨hge, htk, hd⟩
                  · left; exact ⟨hd, by simp [hlt]⟩
                  · right; exact ⟨_, hd, by simp [hge, htk]⟩
              · simp [hw5] at h

theorem readField_singleton (b : Nat) (f : Field) (rest : List Nat) :
    readField [b] ≠ .ok (f, rest) := by
  intro h
  rcases readField_snoc [] b f rest h with ⟨-, _⟩ | ⟨rest', -, ht⟩
  · unfold readField at h
    cases hkey : consumeVarint [b] with
    | error e => simp [hkey] at h
    | ok p =>
      obtain ⟨key, r⟩ := p
      have hlen := consumeVarint_length _ _ _ hkey
      have hr : r = [] := List.length_eq_zero.mp (by simp only [List.length_singleton] at hlen; omega)
      subst hr
      simp only [hkey, consumeVarint_nil, List.length_nil] at h
      split at h
      · simp at h
      · split at h
        · simp at h
        · split at h
          · simp at h
          · split at h
            · simp at h
            · split at h
              · simp at h
              · simp at h
  · rw [readField_nil] at ht
    simp at ht

/-- A message that reads to the end no longer does once its final byte is
removed: the reader runs out of input. -/
theorem readMessage_snoc (bs : List Nat) (b : Nat) (fs : List Field)
    (h : readMessage (bs ++ [b]) = .ok fs) : readMessage bs = .error .Truncated := by
  generalize hn : bs.length = n
  induction n using Nat.strong_induction_on generalizing bs fs with
  | _ n ih =>
    subst hn
    rw [readMessage_eq _ (by simp)] at h
    cases hf : readField (bs ++ [b]) with
    | error e => simp [hf] at h
    | ok p =>
      obtain ⟨f, rest⟩ := p
      simp only [hf] at h
      cases hrest : readMessage rest with
      | error e => simp [hrest] at h
      | ok fs' =>
        cases bs with
        | nil => exact absurd hf (readField_singleton b f rest)
        | cons c t =>
          rw [readMessage_eq _ (by simp)]
          rcases readField_snoc _ b f rest hf with ⟨-, ht⟩ | ⟨rest', hr, ht⟩
          · simp [ht]
          · subst hr
            have hlen := readField_length _ _ _ ht
            have := ih rest'.length (by simp only [List.length_cons] at hlen ⊢; omega) rest' fs' hrest rfl
            simp [ht, this]

/-! ### Input followed by more input -/

theorem readVarint_append (k : Nat) (bs s : List Nat) (v : Nat) (r : List Nat)
    (h : readVarint k bs = .ok (v, r)) : readVarint k (bs ++ s) = .ok (v, r ++ s) := by
  induction k generalizing bs v with
  | zero => simp [readVarint] at h
  | succ k ih =>
    cases bs with
    | nil => simp [readVarint] at h
    | cons c t =>
      rw [readVarint] at h
      rw [List.cons_append, readVarint]
      by_cases hc : c < 128
      · rw [if_pos hc] at h ⊢
        simp only [Res.ok.injEq, Prod.mk.injEq] at h ⊢
        exact ⟨h.1, by rw [h.2]⟩
      · rw [if_neg hc] at h ⊢
        cases hrec : readVarint k t with
        | error e => simp [hrec] at h
        | ok p =>
          obtain ⟨v', r'⟩ := p
          simp only [hrec, Res.ok.injEq, Prod.mk.injEq] at h
          obtain ⟨hv, rfl⟩ := h
          simp [ih t v' hrec, hv]

theorem consumeVarint_append (bs s : List Nat) (v : Nat) (r : List Nat)
    (h : consumeVarint bs = .ok (v, r)) : consumeVarint (bs ++ s) = .ok (v, r ++ s) := by
  unfold consumeVarint at h ⊢
  cases hrec : readVarint 10 bs with
  | error e => simp [hrec] at h
  | ok p =>
    obtain ⟨v', r'⟩ := p
    simp only [hrec] at h
    rw [readVarint_append 10 bs s v' r' hrec]
    split at h
    · rename_i hlt
      simp only [Res.ok.injEq, Prod.mk.injEq] at h
      obtain ⟨rfl, rfl⟩ := h
      simp [hlt]
    · simp at h

theorem readField_append (bs s : List Nat) (f : Field) (rest : List Nat)
    (h : readField bs = .ok (f, rest)) : readField (bs ++ s) = .ok (f, rest ++ s) := by
  unfold readField at h ⊢
  cases hkey : consumeVarint bs with
  | error e => simp [hkey] at h
  | ok p =>
    obtain ⟨key, r⟩ := p
    simp only [hkey] at h
    rw [consumeVarint_append bs s key r hkey]
    simp only
    by_cases h0 : key / 8 = 0
    · simp [h0] at h
    · simp only [h0, if_false] at h ⊢
      by_cases hw0 : key % 8 = 0
      · simp only [hw0, if_true] at h ⊢
        cases hv : consumeVarint r with
        | error e => simp [hv] at h
        | ok q =>
          obtain ⟨v, r'⟩ := q
          simp only [hv, Res.ok.injEq, Prod.mk.injEq] at h
          obtain ⟨rfl, rfl⟩ := h
          rw [consumeVarint_append r s v r' hv]
      · simp only [hw0, if_false] at h ⊢
        by_cases hw1 : key % 8 = 1
        · simp only [hw1, if_true] at h ⊢
          by_cases hl : r.length < 8
          · rw [if_pos hl] at h; simp at h
          · rw [if_neg hl] at h; simp only [Res.ok.injEq, Prod.mk.injEq] at h
            obtain ⟨rfl, rfl⟩ := h
            have hl' : ¬ (r ++ s).length < 8 := by simp only [List.length_append]; omega
            rw [if_neg hl', List.take_append_of_le_length (by omega),
              List.drop_append_of_le_length (by omega)]
        · simp only [hw1, if_false] at h ⊢
          by_cases hw2 : key % 8 = 2
          · simp only [hw2, if_true] at h ⊢
            cases hv : consumeVarint r with
            | error e => simp [hv] at h
            | ok q =>
              obtain ⟨n, r'⟩ := q
              simp only [hv] at h
              rw [consumeVarint_append r s n r' hv]
              simp only
              by_cases hl : r'.length < n
              · rw [if_pos hl] at h; simp at h
              · rw [if_neg hl] at h; simp only [Res.ok.injEq, Prod.mk.injEq] at h
                obtain ⟨rfl, rfl⟩ := h
                have hl' : ¬ (r' ++ s).length < n := by simp only [List.length_append]; omega
                rw [if_neg hl', List.take_append_of_le_length (by omega),
                  List.drop_append_of_le_length (by omega)]
          · simp only [hw2, if_false] at h ⊢
            by_cases hw5 : key % 8 = 5
            · simp only [hw5, if_true] at h ⊢
              by_cases hl : r.length < 4
              · rw [if_pos hl] at h; simp at h
              · rw [if_neg hl] at h; simp only [Res.ok.injEq, Prod.mk.injEq] at h
                obtain ⟨rfl, rfl⟩ := h
                have hl' : ¬ (r ++ s).length < 4 := by simp only [List.length_append]; omega
                rw [if_neg hl', List.take_append_of_le_length (by omega),
                  List.drop_append_of_le_length (by omega)]
            · simp [hw5] at h

/-- After a sequence of complete fields the reader goes on with what follows. -/
theorem readMessage_append (pre s : List Nat) (fs : List Field)
    (h : readMessage pre = .ok fs) :
    readMessage (pre ++ s) =
      match readMessage s with
      | .error e => .error e
      | .ok fs' => .ok (fs ++ fs') := by
  generalize hn : pre.length = n
  induction n using Nat.strong_induction_on generalizing pre fs with
  | _ n ih =>
    subst hn
    cases pre with
    | nil =>
      have : fs = [] := by
        have h' : readMessage [] = .ok [] := rfl
        rw [h'] at h
        simp only [Res.ok.injEq] at h
        exact h.symm
      subst this
      rw [List.nil_append]
      cases readMessage s <;> simp
    | cons c t =>
      rw [readMessage_eq _ (by simp)] at h
      rw [readMessage_eq _ (by simp)]
      cases hf : readField (c :: t) with
      | error e => simp [hf] at h
      | ok p =>
        obtain ⟨f, rest⟩ := p
        simp only [hf] at h
        rw [readField_append _ s f rest hf]
        simp only
        cases hrest : readMessage rest with
        | error e => simp [hrest] at h
        | ok fs' =>
          simp only [hrest, Res.ok.injEq] at h
          subst h
          have hlen := readField_length _ _ _ hf
          rw [ih rest.length hlen rest fs' hrest rfl]
          cases readMessage s <;> simp

/-- A length-prefixed field whose declared length exceeds what is left of
the input, after any number of complete fields, is a truncation. -/
theorem readMessage_short (pre r0 r1 p : List Nat) (fs : List Field) (key n : Nat)
    (hpre : readMessage pre = .ok fs) (hkey : consumeVarint r0 = .ok (key, r1))
    (h0 : key / 8 ≠ 0) (h2 : key % 8 = 2) (hlen : consumeVarint r1 = .ok (n, p))
    (hshort : p.length < n) : readMessage (pre ++ r0) = .error .Truncated := by
  have hne : r0 ≠ [] := by
    intro h
    rw [h, consumeVarint_nil] at hkey
    simp at hkey
  have hf : readField r0 = .error .Truncated := by
    unfold readField
    simp [hkey, h0, h2, hlen, hshort]
  rw [readMessage_append pre r0 fs hpre, readMessage_eq r0 hne, hf]

/-- The embedded descriptor parses to `expectedFile`. -/
theorem parseFileDescriptor_rawDesc :
    parseFileDescriptor file_TransactionCompiler_proto_rawDesc = .ok expectedFile := by
  set_option maxRecDepth 100000 in decide

/-- C1: the descriptor bytes parse to exactly one message, `PreSigningOutput`,
with exactly the four fields (data_hash,1), (data,2), (error_code,3), (error,4),
and the names and numbers in the struct tags are the same. -/
theorem schema_field_tags :
    ∃ fd msg, parseFileDescriptor file_TransactionCompiler_proto_rawDesc = .ok fd ∧
      fd.messages = [msg] ∧ msg.name = "PreSigningOutput" ∧
      msg.fields.map (fun f => (f.name, f.number)) =
        [("data_hash", 1), ("data", 2), ("error_code", 3), ("error", 4)] ∧
      PreSigningOutput.structFields.map (fun f => (tagName f.protobufTag, tagNumber f.protobufTag)) =
        msg.fields.map (fun f => (some f.name, some f.number)) :=
  ⟨expectedFile, _, parseFileDescriptor_rawDesc, rfl, rfl, by decide, by decide⟩

/-- C2: in the descriptor data_hash and data have type bytes (12), error_code
has type int32 (5) and error has type string (9); the struct declares them as
byte slice, byte slice, int32 and string, with the wire kinds bytes, bytes,
varint, bytes; and `GetErrorCode` is within `[-2^31, 2^31-1]` on every receiver. -/
theorem field_types_match :
    (∃ fd msg, parseFileDescriptor file_TransactionCompiler_proto_rawDesc = .ok fd ∧
      fd.messages = [msg] ∧
      msg.fields.map (fun f => (f.name, f.type)) =
        [("data_hash", 12), ("data", 12), ("error_code", 5), ("error", 9)] ∧
      msg.fields.map (fun f => f.type) = [TYPE_BYTES, TYPE_BYTES, TYPE_INT32, TYPE_STRING] ∧
      PreSigningOutput.structFields.map (fun f => (f.goName, f.goType)) =
        [("DataHash", .byteSlice), ("Data", .byteSlice), ("ErrorCode", .int32), ("Error", .string)] ∧
      msg.fields.map (fun f => goTypeOf f.type) =
        PreSigningOutput.structFields.map (fun f => some f.goType) ∧
      msg.fields.map (fun f => wireOf f.type) =
        PreSigningOutput.structFields.map (fun f => some (tagWire f.protobufTag))) ∧
    (∀ x : Option PreSigningOutput,
      -2 ^ 31 ≤ (PreSigningOutput.GetErrorCode x).val ∧
      (PreSigningOutput.GetErrorCode x).val ≤ 2 ^ 31 - 1) := by
  refine ⟨⟨expectedFile, _, parseFileDescriptor_rawDesc, rfl, by decide, by decide, by decide,
    by decide, by decide⟩, ?_⟩
  intro x
  have h := (PreSigningOutput.GetErrorCode x).property
  norm_num
  exact h

/-- C3: for every valid value the decoding of its encoding succeeds and has
the same DataHash, Data, ErrorCode and Error (every field, so every one that
was non-default); the success value and the failure value of the concrete
scenarios decode to themselves. -/
theorem round_trip :
    (∀ v : PreSigningOutput, Valid v →
      ∃ w, Decode (Encode v) = .ok w ∧ sameFields v w) ∧
    Decode (Encode successValue) = .ok successValue ∧
    Decode (Encode failureValue) = .ok failureValue := by
  refine ⟨fun v hv => ⟨_, Decode_Encode v hv, rfl, rfl, rfl, rfl⟩, ?_, ?_⟩
  · exact Decode_Encode successValue (by decide)
  · exact Decode_Encode failureValue (by decide)

/-- The failure value is valid and its encoding decodes to a value with the same fields. -/
theorem round_trip_witness :
    Valid failureValue ∧ ∃ w, Decode (Encode failureValue) = .ok w ∧ sameFields failureValue w :=
  ⟨by decide, round_trip.1 failureValue (by decide)⟩

/-- C4: the encoding of a valid value with its final byte removed is rejected
as truncated, and so is any input `Decode` accepts once its final byte is
removed (the empty encoding has no final byte to remove); a length-prefixed
field whose declared length exceeds the remaining input is rejected as
truncated, as is the buffer that declares 10 bytes and supplies 3. -/
theorem truncation_detected :
    (∀ (v : PreSigningOutput) (bs : List Nat) (b : Nat),
      Valid v → Encode v = bs ++ [b] → Decode bs = .error .Truncated) ∧
    (∀ (bs : List Nat) (b : Nat) (w : PreSigningOutput),
      Decode (bs ++ [b]) = .ok w → Decode bs = .error .Truncated) ∧
    (∀ (pre r0 r1 p : List Nat) (fs : List Field) (key n : Nat),
      readMessage pre = .ok fs → consumeVarint r0 = .ok (key, r1) → key / 8 ≠ 0 → key % 8 = 2 →
      consumeVarint r1 = .ok (n, p) → p.length < n → Decode (pre ++ r0) = .error .Truncated) ∧
    Decode [0x0A, 0x0A, 1, 2, 3] = .error .Truncated := by
  have snoc : ∀ (bs : List Nat) (b : Nat) (w : PreSigningOutput),
      Decode (bs ++ [b]) = .ok w → Decode bs = .error .Truncated := by
    intro bs b w h
    unfold Decode at h ⊢
    cases hm : readMessage (bs ++ [b]) with
    | error e => simp [hm] at h
    | ok fs => rw [readMessage_snoc bs b fs hm]
  refine ⟨?_, snoc, ?_, by decide⟩
  · intro v bs b hv henc
    apply snoc bs b _
    rw [← henc]
    exact Decode_Encode v hv
  · intro pre r0 r1 p fs key n hpre hkey h0 h2 hlen hshort
    unfold Decode
    rw [readMessage_short pre r0 r1 p fs key n hpre hkey h0 h2 hlen hshort]

/-- The encoding of the success value without its final byte, an accepted
input without its final byte, and a field declaring 10 bytes with 3 supplied
after a complete field, are all rejected as truncated. -/
theorem truncation_detected_witness :
    Decode [0x0A, 2, 0xAA, 0xBB, 0x12, 5, 0x11, 0x22, 0x33, 0x44] = .error .Truncated ∧
    Decode [0x18, 0xAC] = .error .Truncated ∧
    Decode ([0x18, 0x01] ++ [0x22, 0x0A, 0x61, 0x62, 0x63]) = .error .Truncated :=
  ⟨truncation_detected.1 successValue [0x0A, 2, 0xAA, 0xBB, 0x12, 5, 0x11, 0x22, 0x33, 0x44] 0x55
      (by decide) (by decide),
    truncation_detected.2.1 [0x18, 0xAC] 0x02 { ErrorCode := ⟨300, by decide⟩ } (by decide),
    truncation_detected.2.2.1 [0x18, 0x01] [0x22, 0x0A, 0x61, 0x62, 0x63] [0x0A, 0x61, 0x62, 0x63]
      [0x61, 0x62, 0x63] [⟨3, .varint 1⟩] 0x22 10 (by decide) (by decide) (by decide) (by decide)
      (by decide) (by decide)⟩

/-- C5: `Validate` reports a violation exactly when `error_code == 0` and
`data` or `data_hash` is empty; with `error_code != 0` it reports none. -/
theorem validate_iff (v : PreSigningOutput) :
    (Validate v ≠ none ↔ (v.ErrorCode = GoInt32.zero ∧ (v.Data = [] ∨ v.DataHash = []))) ∧
    (v.ErrorCode ≠ GoInt32.zero → Validate v = none) := by
  unfold Validate
  by_cases h0 : v.ErrorCode = GoInt32.zero
  · by_cases h1 : v.Data = [] ∨ v.DataHash = []
    · simp [h0, h1]
    · simp [h0, h1]
  · simp [h0]

/-- The failure value has a nonzero error code and passes `Validate`. -/
theorem validate_iff_witness :
    failureValue.ErrorCode ≠ GoInt32.zero ∧ Validate failureValue = none :=
  ⟨by decide, (validate_iff failureValue).2 (by decide)⟩

/-- C6 as stated fails: `Reset` changes the fields of the value it is applied
to: on the success value it leaves an empty DataHash where `0xAABB` was. -/
theorem reset_changes_fields :
    Op.after true (fun _ => []) id {} successValue .Reset =
      some (PreSigningOutput.Reset true successValue) ∧
    successValue.DataHash = [0xAA, 0xBB] ∧
    (PreSigningOutput.Reset true successValue).DataHash = [] ∧
    ¬ sameFields successValue (PreSigningOutput.Reset true successValue) := by
  refine ⟨rfl, rfl, rfl, ?_⟩
  decide

/-- C6 amended: every operation other than `Reset` leaves DataHash, Data,
ErrorCode and Error of its receiver as they were; `Reset` sets the four to
their zero values. -/
theorem fields_unchanged_except_reset (UnsafeEnabled : Bool)
    (MessageStringOf : Option PreSigningOutput → List Nat) (CompressGZIP : List Nat → List Nat)
    (g : RawDescState) (x : PreSigningOutput) (op : Op) :
    (op ≠ .Reset → ∃ y, Op.after UnsafeEnabled MessageStringOf CompressGZIP g x op = some y ∧
      sameFields x y) ∧
    (op = .Reset → ∃ y, Op.after UnsafeEnabled MessageStringOf CompressGZIP g x op = some y ∧
      y.DataHash = [] ∧ y.Data = [] ∧ y.ErrorCode = GoInt32.zero ∧ y.Error = []) := by
  constructor
  · intro hop
    cases op with
    | Reset => exact absurd rfl hop
    | String =>
      cases UnsafeEnabled
      · exact ⟨x, rfl, rfl, rfl, rfl, rfl⟩
      · by_cases h : x.state.messageInfo = none
        · exact ⟨{ x with state := { messageInfo := some 0 } },
            by simp [Op.after, PreSigningOutput.String, PreSigningOutput.ProtoReflect, h],
            rfl, rfl, rfl, rfl⟩
        · exact ⟨x, by simp [Op.after, PreSigningOutput.String, PreSigningOutput.ProtoReflect, h],
            rfl, rfl, rfl, rfl⟩
    | ProtoReflect =>
      cases UnsafeEnabled
      · exact ⟨x, rfl, rfl, rfl, rfl, rfl⟩
      · by_cases h : x.state.messageInfo = none
        · exact ⟨{ x with state := { messageInfo := some 0 } },
            by simp [Op.after, PreSigningOutput.ProtoReflect, h], rfl, rfl, rfl, rfl⟩
        · exact ⟨x, by simp [Op.after, PreSigningOutput.ProtoReflect, h], rfl, rfl, rfl, rfl⟩
    | ProtoMessage => exact ⟨x, rfl, rfl, rfl, rfl, rfl⟩
    | Descriptor => exact ⟨x, rfl, rfl, rfl, rfl, rfl⟩
    | GetDataHash => exact ⟨x, rfl, rfl, rfl, rfl, rfl⟩
    | GetData => exact ⟨x, rfl, rfl, rfl, rfl, rfl⟩
    | GetErrorCode => exact ⟨x, rfl, rfl, rfl, rfl, rfl⟩
    | GetError => exact ⟨x, rfl, rfl, rfl, rfl, rfl⟩
  · intro hop
    subst hop
    cases UnsafeEnabled
    · exact ⟨_, rfl, rfl, rfl, rfl, rfl⟩
    · exact ⟨_, rfl, rfl, rfl, rfl, rfl⟩

/-- On the success value, with the unsafe path on, `ProtoReflect` keeps the
four fields and `Reset` empties them. -/
theorem fields_unchanged_except_reset_witness :
    (Op.ProtoReflect ≠ Op.Reset ∧
      ∃ y, Op.after true (fun _ => []) id {} successValue .ProtoReflect = some y ∧
        sameFields successValue y) ∧
    (∃ y, Op.after true (fun _ => []) id {} successValue .Reset = some y ∧
      y.DataHash = [] ∧ y.Data = [] ∧ y.ErrorCode = GoInt32.zero ∧ y.Error = []) :=
  ⟨⟨by decide,
      (fields_unchanged_except_reset true (fun _ => []) id {} successValue .ProtoReflect).1
        (by decide)⟩,
    (fields_unchanged_except_reset true (fun _ => []) id {} successValue .Reset).2 rfl⟩

/-- C7: the descriptor declares file TransactionCompiler.proto, package
TW.TxCompiler.Proto, syntax proto3, exactly one message (PreSigningOutput), no
enums, no extensions and no services; the counts of the type builder, the one
entry of the Go types and the length 1 of the message infos agree with it. -/
theorem schema_identity (UnsafeEnabled : Bool) :
    ∃ fd, parseFileDescriptor (file_TransactionCompiler_proto_init UnsafeEnabled).File.RawDescriptor = .ok fd ∧
      (file_TransactionCompiler_proto_init UnsafeEnabled).File.RawDescriptor =
        file_TransactionCompiler_proto_rawDesc ∧
      fd.name = "TransactionCompiler.proto" ∧ fd.package = "TW.TxCompiler.Proto" ∧
      fd.syntaxName = "proto3" ∧
      fd.messages.map (fun m => m.name) = ["PreSigningOutput"] ∧
      fd.totalMessages = 1 ∧ fd.totalEnums = 0 ∧ fd.totalExtensions = 0 ∧ fd.numServices = 0 ∧
      (file_TransactionCompiler_proto_init UnsafeEnabled).File.NumMessages = fd.totalMessages ∧
      (file_TransactionCompiler_proto_init UnsafeEnabled).File.NumEnums = fd.totalEnums ∧
      (file_TransactionCompiler_proto_init UnsafeEnabled).File.NumExtensions = fd.totalExtensions ∧
      (file_TransactionCompiler_proto_init UnsafeEnabled).File.NumServices = fd.numServices ∧
      (file_TransactionCompiler_proto_init UnsafeEnabled).GoTypes = fd.messages.map (fun m => m.name) ∧
      file_TransactionCompiler_proto_goTypes.length = 1 ∧
      (file_TransactionCompiler_proto_init UnsafeEnabled).MessageInfos.length = 1 ∧
      file_TransactionCompiler_proto_msgTypes.length = 1 := by
  refine ⟨expectedFile, parseFileDescriptor_rawDesc, rfl, ?_⟩
  cases UnsafeEnabled <;> decide

/-- C8: the getters are total; on a non-nil receiver they return the fields,
on the nil receiver the zero values, which are what the all-default message gives. -/
theorem getters_nil_safe (x : PreSigningOutput) :
    (PreSigningOutput.GetDataHash (some x) = x.DataHash ∧ PreSigningOutput.GetData (some x) = x.Data ∧
      PreSigningOutput.GetErrorCode (some x) = x.ErrorCode ∧ PreSigningOutput.GetError (some x) = x.Error) ∧
    (PreSigningOutput.GetDataHash none = [] ∧ PreSigningOutput.GetData none = [] ∧
      (PreSigningOutput.GetErrorCode none).val = 0 ∧ PreSigningOutput.GetError none = []) ∧
    (PreSigningOutput.GetDataHash none = PreSigningOutput.GetDataHash (some {}) ∧
      PreSigningOutput.GetData none = PreSigningOutput.GetData (some {}) ∧
      PreSigningOutput.GetErrorCode none = PreSigningOutput.GetErrorCode (some {}) ∧
      PreSigningOutput.GetError none = PreSigningOutput.GetError (some {})) :=
  ⟨⟨rfl, rfl, rfl, rfl⟩, ⟨rfl, rfl, rfl, rfl⟩, ⟨rfl, rfl, rfl, rfl⟩⟩

/-- C9: after `Reset` the four fields are empty, empty, 0 and empty, whatever
the value held, so every getter returns its zero value; a second `Reset`
changes nothing. -/
theorem reset_default_idempotent (UnsafeEnabled : Bool) (x : PreSigningOutput) :
    ((PreSigningOutput.Reset UnsafeEnabled x).DataHash = [] ∧
      (PreSigningOutput.Reset UnsafeEnabled x).Data = [] ∧
      (PreSigningOutput.Reset UnsafeEnabled x).ErrorCode.val = 0 ∧
      (PreSigningOutput.Reset UnsafeEnabled x).Error = []) ∧
    (PreSigningOutput.GetDataHash (some (PreSigningOutput.Reset UnsafeEnabled x)) = [] ∧
      PreSigningOutput.GetData (some (PreSigningOutput.Reset UnsafeEnabled x)) = [] ∧
      PreSigningOutput.GetErrorCode (some (PreSigningOutput.Reset UnsafeEnabled x)) = GoInt32.zero ∧
      PreSigningOutput.GetError (some (PreSigningOutput.Reset UnsafeEnabled x)) = []) ∧
    PreSigningOutput.Reset UnsafeEnabled (PreSigningOutput.Reset UnsafeEnabled x) =
      PreSigningOutput.Reset UnsafeEnabled x := by
  cases UnsafeEnabled <;> exact ⟨⟨rfl, rfl, rfl, rfl⟩, ⟨rfl, rfl, rfl, rfl⟩, rfl⟩

/-- C10: the descriptor is 265 bytes and a well-formed message: the top level
reads to the end with nothing left over and writes back to the same bytes, so
does the one message entry, and so does each of its four field entries. -/
theorem rawDesc_well_formed :
    file_TransactionCompiler_proto_rawDesc.length = 265 ∧
    ∃ top m msg, readMessage file_TransactionCompiler_proto_rawDesc = .ok top ∧
      writeMessage top = file_TransactionCompiler_proto_rawDesc ∧
      bytesOf 4 top = [m] ∧ readMessage m = .ok msg ∧ writeMessage msg = m ∧
      (bytesOf 2 msg).length = 4 ∧ (bytesOf 2 msg).map reparse = (bytesOf 2 msg).map some := by
  set_option maxRecDepth 100000 in
  refine ⟨by decide, _, _, _, rfl, by decide, rfl, rfl, by decide, by decide, by decide⟩

end TransactionCompiler
